import Mathlib

/-!
Shallow embedding of the `py_obs` build-service client (`src/py_obs/project.py`).

Modelling conventions:
* Python `str | None` fields become `Option String`; Python truthiness of an
  optional string (`None` and `""` are falsy) is `optStrTruthy`.
* Python `int` fields with truthiness checks become `Option Int` with
  `optIntTruthy` (`None` and `0` are falsy).
* `xml.etree.ElementTree.Element` becomes the inductive `ETElement`; its
  Python truthiness (an element with no children is falsy, per CPython's
  `Element.__bool__`) is `optElemTruthy` on optional elements.
* The network transport `Osc` becomes an `Env` of response oracles, one per
  kind of request the embedded functions issue.  Every embedded operation
  returns its result together with the list of network requests it issued,
  in issue order, so that claims about which requests go on the wire are
  statable.  `asyncio.gather` over group fetches is modelled by `gather_groups`:
  all requests of a batch are issued, and the batch fails when any single
  fetch fails (fail-fast join semantics, deterministically taking the first
  failure in list order as the representative error).
* Python's `list(set(xs))` is modelled by `List.dedup`.  The iteration order
  of a Python `set` is unspecified, so theorems about the de-duplicated
  result lists only use order-insensitive properties (membership, pairwise
  distinctness, `toFinset`).
* The module `py_obs.person` (`Person`, `Person2`, `OwnerCollection`,
  `UserGroup`, `fetch_group`) is imported by `project.py` but its source is
  not part of the repository snapshot; those record types are modelled from
  the spec, as marked on each definition.
-/

/-- Errors visible to callers.  `transport` models a failure raised by the
network layer (`osc.api_request` or a group fetch); `contract` models a
failed `assert`, i.e. a programming-contract violation raised before any
network interaction.  The two are distinct constructors, hence
distinguishable by the caller. -/
inductive ObsError where
  | transport (msg : String)
  | contract (msg : String)
deriving DecidableEq, Repr

/-- Truthiness of a Python `str | None` value: `None` and `""` are falsy. -/
def optStrTruthy : Option String → Bool
  | none => false
  | some s => s ≠ ""

/-- Truthiness of a Python `int | None` value: `None` and `0` are falsy. -/
def optIntTruthy : Option Int → Bool
  | none => false
  | some v => v ≠ 0

/-- A tree document node, embedding `xml.etree.ElementTree.Element`:
a tag, an attribute mapping, optional text and a child list. -/
inductive ETElement where
  | node (tag : String) (attrib : List (String × String))
      (text : Option String) (children : List ETElement)

/-- Child list of an element. -/
def ETElement.children : ETElement → List ETElement
  | .node _ _ _ c => c

/-- Truthiness of a Python `ET.Element | None` value: `None` is falsy, and an
element with no children is falsy (CPython `Element.__bool__` is
`len(self) != 0`). -/
def optElemTruthy : Option ETElement → Bool
  | none => false
  | some e => !e.children.isEmpty

/-- Modelled from the spec (missing module `py_obs.person`): an identity
record carrying a user id plus a role name. -/
structure Person where
  userid : String
  role : String
deriving DecidableEq, Repr

/-- Modelled from the spec (missing module `py_obs.person`): a bare identity
record carrying only a user id; the wire format's second person variant.
Identity equality is equality of user ids. -/
structure Person2 where
  userid : String
deriving DecidableEq, Repr

/-- Modelled from the spec (missing module `py_obs.person`): a reference to a
group by name, as it appears inside an owner record. -/
structure GroupRef where
  name : String
deriving DecidableEq, Repr

/-- Modelled from the spec (missing module `py_obs.person`): one owner record
of an owner-search response: an optional project name, an optional package
name, the directly-named persons and the group references. -/
structure Owner where
  project : Option String
  package : Option String
  person : List Person2
  group : List GroupRef
deriving DecidableEq, Repr

/-- Modelled from the spec (missing module `py_obs.person`): the parsed
owner-search response, an ordered sequence of owner records. -/
structure OwnerCollection where
  owner : List Owner
deriving DecidableEq, Repr

/-- Modelled from the spec (missing module `py_obs.person`): a fetched group:
a list of explicit group maintainers and a list of plain group members. -/
structure UserGroup where
  maintainer : List Person
  member : List Person
deriving DecidableEq, Repr

/-- A build-repository path entry (`PathEntry` in `project.py`). -/
structure PathEntry where
  project : String
  repository : String
deriving DecidableEq, Repr

/-- A build repository definition (`Repository` in `project.py`). -/
structure Repository where
  name : String
  path : Option (List PathEntry) := none
  arch : Option (List String) := none
deriving DecidableEq, Repr

/-- A project record (`Project` in `project.py`).  The `StrElementField`
wrapper of the source is a plain string here. -/
structure Project where
  name : String
  title : String
  description : String := ""
  person : Option (List Person) := none
  repository : Option (List Repository) := none
deriving DecidableEq, Repr

/-- A package record (`Package` in `project.py`). -/
structure Package where
  name : String
  title : String
  description : String := ""
  scmsync : Option String := none
deriving DecidableEq, Repr

/-- The `Package.meta` property of `project.py`: an element tagged `package`
with the name attribute, title and description children, and an `scmsync`
child only when `scmsync` is truthy. -/
def Package.meta (p : Package) : ETElement :=
  .node "package" [("name", p.name)] none
    ([.node "title" [] (some p.title) [],
      .node "description" [] (some p.description) []] ++
      (match p.scmsync with
       | some s => if s = "" then [] else [.node "scmsync" [] (some s) []]
       | none => []))

/-- Modelled from the spec (missing mixin `xml_factory.MetaMixin`): the
serialized form of a project record, a tree document rooted at the record's
declared tag name with a child or attribute per field in declaration order,
omitting fields that are unset. -/
def Project.meta (p : Project) : ETElement :=
  .node "project" [("name", p.name)] none
    ([.node "title" [] (some p.title) [],
      .node "description" [] (some p.description) []] ++
      (match p.person with
       | some ps => ps.map (fun q => .node "person" [("userid", q.userid), ("role", q.role)] none [])
       | none => []) ++
      (match p.repository with
       | some rs => rs.map (fun r => .node "repository" [("name", r.name)] none [])
       | none => []))

/-- The maintainer-resolution result (`PackageMaintainers` in `project.py`). -/
structure PackageMaintainers where
  package : List Person2 := []
  project : List Person2 := []
deriving DecidableEq, Repr

/-- One request handed to `osc.api_request`: route, HTTP method, optional
query parameters in insertion order, optional body. -/
structure ApiRequest where
  route : String
  method : String
  params : Option (List (String × String))
  payload : Option ETElement

/-- One network request issued by the embedded operations: either a direct
`osc.api_request` call or a group-membership fetch (`fetch_group` of the
missing module `py_obs.person`, which performs its own request). -/
inductive NetRequest where
  | api (r : ApiRequest)
  | groupFetch (name : String)

/-- A directory-listing entry (`_Directory.Entry` in `project.py`). -/
structure DirEntry where
  name : Option String
  md5 : Option String
  size : Option Int
  mtime : Option Int
  originproject : Option String := none
  available : Option Bool := none
  recommended : Option Bool := none
  hash : Option String := none
deriving DecidableEq, Repr

/-- Link information of a directory listing (`_Directory.LinkInfo`). -/
structure LinkInfo where
  project : Option String
  package : Option String
  srcmd5 : Option String
  rev : Option String
  baserev : Option String
  xsrcmd5 : Option String
  lsrcmd5 : Option String
  error : Option String
deriving DecidableEq, Repr

/-- Service information of a directory listing (`_Directory.ServiceInfo`). -/
structure ServiceInfo where
  code : Option String
  error : Option String
  lsrcmd5 : Option String
  xsrcmd5 : Option String
deriving DecidableEq, Repr

/-- A parsed source directory listing (`_Directory` in `project.py`). -/
structure Directory where
  name : Option String
  rev : Option String
  vrev : Option String
  srcmd5 : Option String
  count : Option Int
  entry : List DirEntry
  linkinfo : List LinkInfo := []
  serviceinfo : List ServiceInfo := []
deriving DecidableEq, Repr

/-- A simplified file record (`File` in `project.py`). -/
structure File where
  name : String
  md5_sum : String
  size : Int
  mtime : Int
deriving DecidableEq, Repr

/-- The response oracles standing in for the remote service: what the
service answers to an owner search, a group fetch, a plain API call and a
directory-listing fetch. -/
structure Env where
  ownerSearch : ApiRequest → Except ObsError OwnerCollection
  fetchGroup : String → Except ObsError UserGroup
  apiCall : ApiRequest → Except ObsError Unit
  fetchDirectory : ApiRequest → Except ObsError Directory

/-- The owner-search request built by `search_for_maintainers`
(`project.py` lines 124-129): a GET to `/search/owner` with the package
name as query parameter, plus a `filter` parameter holding the comma-joined
role names when the `roles` argument is truthy (a non-empty list). -/
def owner_search_request (pkg_name : String) (roles : Option (List String)) : ApiRequest :=
  { route := "/search/owner", method := "GET",
    params := some (("package", pkg_name) ::
      (match roles with
       | some rs => if rs = [] then [] else [("filter", String.intercalate "," rs)]
       | none => [])),
    payload := none }

/-- The package-name resolution at the top of `search_for_maintainers`
(`project.py` lines 117-119): a falsy `pkg_name` argument falls back to
`pkg.name`, and `assert pkg` fails as a contract violation when no package
record was supplied either. -/
def resolve_pkg_name (pkg : Option Package) (pkg_name : Option String) :
    Except ObsError String :=
  if optStrTruthy pkg_name then .ok (pkg_name.getD "")
  else
    match pkg with
    | some p => .ok p.name
    | none => .error (.contract "assert pkg")

/-- The `asyncio.gather` over `fetch_group` tasks (`project.py` line 142):
every fetch of the batch is issued; the join fails when any single fetch
fails, the first failure in list order standing for the batch's error. -/
def gather_groups (env : Env) : List String → Except ObsError (List UserGroup)
  | [] => .ok []
  | n :: rest =>
    match env.fetchGroup n with
    | .error e => .error e
    | .ok g =>
      match gather_groups env rest with
      | .error e => .error e
      | .ok gs => .ok (g :: gs)

/-- Names of the groups an owner record will fetch: every referenced group
whose name is not in `groups_to_ignore`, in reference order (`project.py`
lines 138-140). -/
def owner_fetch_names (groups_to_ignore : List String) (o : Owner) : List String :=
  (o.group.map GroupRef.name).filter (fun n => decide (n ∉ groups_to_ignore))

/-- The closure `fetch_group_members` inside `search_for_maintainers`
(`project.py` lines 136-145): fetch every referenced group whose name is not
ignored, then list the groups' maintainers followed by their plain members,
each as a bare `Person2`.  Returns the resolved members together with the
group-fetch requests issued. -/
def fetch_group_members (env : Env) (groups_to_ignore : List String) (o : Owner) :
    Except ObsError (List Person2) × List NetRequest :=
  let names := owner_fetch_names groups_to_ignore o
  (match gather_groups env names with
   | .error e => .error e
   | .ok res =>
     .ok ((res.flatMap UserGroup.maintainer).map (fun m => ⟨m.userid⟩) ++
          (res.flatMap UserGroup.member).map (fun m => ⟨m.userid⟩)),
   names.map NetRequest.groupFetch)

/-- The first branch condition of the owner loop (`project.py` line 147):
the owner's project is truthy and its package equals the queried name. -/
def owner_pkg_branch (pkg_name : String) (o : Owner) : Bool :=
  optStrTruthy o.project && decide (o.package = some pkg_name)

/-- The second branch condition of the owner loop (`project.py` line 151):
the owner's project is truthy and its package is falsy (absent or empty). -/
def owner_prj_branch (o : Owner) : Bool :=
  optStrTruthy o.project && !(optStrTruthy o.package)

/-- Contribution of one taken or skipped branch of the owner loop: when the
branch condition `taken` holds, the owner's direct persons followed by the
resolved group members (a failed group fetch aborts with its error); when
it does not, nothing, and no requests are issued. -/
def owner_branch_result (env : Env) (groups_to_ignore : List String) (o : Owner)
    (taken : Bool) : Except ObsError (List Person2) × List NetRequest :=
  if taken then
    match fetch_group_members env groups_to_ignore o with
    | (.error e, t) => (.error e, t)
    | (.ok mems, t) => (.ok (o.person ++ mems), t)
  else (.ok [], [])

/-- One iteration of the owner loop (`project.py` lines 134-153) on the
accumulated package-scope and project-scope lists.  Both branch conditions
are tested independently (two `if` statements, not `elif`), in source
order: the package-scope branch runs first and its failure aborts the
iteration before the project-scope branch runs. -/
def process_owner (env : Env) (pkg_name : String) (groups_to_ignore : List String)
    (o : Owner) (acc : List Person2 × List Person2) :
    Except ObsError (List Person2 × List Person2) × List NetRequest :=
  match owner_branch_result env groups_to_ignore o (owner_pkg_branch pkg_name o) with
  | (.error e, t1) => (.error e, t1)
  | (.ok c1, t1) =>
    match owner_branch_result env groups_to_ignore o (owner_prj_branch o) with
    | (.error e, t2) => (.error e, t1 ++ t2)
    | (.ok c2, t2) => (.ok (acc.1 ++ c1, acc.2 ++ c2), t1 ++ t2)

/-- The owner loop of `search_for_maintainers` folded over the response's
owner records in order, threading the accumulated scope lists and collecting
the issued group-fetch requests; the first failing iteration aborts the
loop with its error. -/
def process_owners (env : Env) (pkg_name : String) (groups_to_ignore : List String) :
    List Owner → List Person2 × List Person2 →
    Except ObsError (List Person2 × List Person2) × List NetRequest
  | [], acc => (.ok acc, [])
  | o :: rest, acc =>
    match process_owner env pkg_name groups_to_ignore o acc with
    | (.error e, t) => (.error e, t)
    | (.ok acc2, t) =>
      match process_owners env pkg_name groups_to_ignore rest acc2 with
      | (r, t2) => (r, t ++ t2)

/-- The maintainer resolver `search_for_maintainers` (`project.py` lines
99-157): resolve the package name, issue one owner search, walk the owner
records and return the two scope lists with duplicates removed
(`list(set(...))`).  The second component lists every network request
issued, in issue order. -/
def search_for_maintainers (env : Env) (pkg : Option Package) (pkg_name : Option String)
    (roles : Option (List String)) (groups_to_ignore : Option (List String)) :
    Except ObsError PackageMaintainers × List NetRequest :=
  match resolve_pkg_name pkg pkg_name with
  | .error e => (.error e, [])
  | .ok name =>
    let gti := groups_to_ignore.getD []
    let req := owner_search_request name roles
    match env.ownerSearch req with
    | .error e => (.error e, [.api req])
    | .ok owners =>
      match process_owners env name gti owners.owner ([], []) with
      | (.error e, t) => (.error e, .api req :: t)
      | (.ok (pkgM, prjM), t) =>
        (.ok { package := pkgM.dedup, project := prjM.dedup }, .api req :: t)

/-- The first dispatch condition of `send_meta` (`project.py` line 194):
both a project record and a package record were supplied (dataclass
instances are always truthy). -/
def send_meta_cond1 (prj : Option Project) (pkg : Option Package) : Bool :=
  prj.isSome && pkg.isSome

/-- The second dispatch condition of `send_meta` (`project.py` line 197):
a project record without a package record. -/
def send_meta_cond2 (prj : Option Project) (pkg : Option Package) : Bool :=
  prj.isSome && !pkg.isSome

/-- The third dispatch condition of `send_meta` (`project.py` line 200):
truthy project name, package name and package meta document. -/
def send_meta_cond3 (prj_name pkg_name : Option String) (pkg_meta : Option ETElement) : Bool :=
  optStrTruthy prj_name && optStrTruthy pkg_name && optElemTruthy pkg_meta

/-- The fourth dispatch condition of `send_meta` (`project.py` line 203):
truthy project name and project meta document. -/
def send_meta_cond4 (prj_name : Option String) (prj_meta : Option ETElement) : Bool :=
  optStrTruthy prj_name && optElemTruthy prj_meta

/-- A metadata PUT request to `{route}/_meta` with the serialized document
as body (`project.py` lines 209-211). -/
def meta_put_request (route : String) (meta : ETElement) : ApiRequest :=
  { route := route ++ "/_meta", method := "PUT", params := none, payload := some meta }

/-- The metadata publisher `send_meta` (`project.py` lines 182-211): the
four dispatch conditions are tried in order; the first match determines the
target path and body, and when none matches the call aborts with the
`assert False` contract violation before issuing any request. -/
def send_meta (env : Env) (prj : Option Project) (prj_name : Option String)
    (prj_meta : Option ETElement) (pkg : Option Package) (pkg_name : Option String)
    (pkg_meta : Option ETElement) : Except ObsError Unit × List NetRequest :=
  match prj, pkg with
  | some p, some k =>
    let req := meta_put_request ("/source/" ++ p.name ++ "/" ++ k.name) k.meta
    (env.apiCall req, [.api req])
  | some p, none =>
    let req := meta_put_request ("/source/" ++ p.name) p.meta
    (env.apiCall req, [.api req])
  | none, _ =>
    if send_meta_cond3 prj_name pkg_name pkg_meta then
      let req := meta_put_request
        ("/source/" ++ prj_name.getD "" ++ "/" ++ pkg_name.getD "")
        (pkg_meta.getD (.node "" [] none []))
      (env.apiCall req, [.api req])
    else if send_meta_cond4 prj_name prj_meta then
      let req := meta_put_request ("/source/" ++ prj_name.getD "")
        (prj_meta.getD (.node "" [] none []))
      (env.apiCall req, [.api req])
    else (.error (.contract "Invalid parameter combination"), [])

/-- Name resolution for a `Project | str` argument (`project.py` line 233). -/
def prj_arg_name : Project ⊕ String → String
  | .inl p => p.name
  | .inr s => s

/-- The entity-deletion operation `delete` (`project.py` lines 226-240):
the route starts as `/source/{project}/` and the package name is appended
only when the `pkg` argument is truthy (a record, or a non-empty name);
`force` adds the `force=1` query parameter. -/
def delete (env : Env) (prj : Project ⊕ String) (pkg : Option (Package ⊕ String))
    (force : Bool) : Except ObsError Unit × List NetRequest :=
  let route := "/source/" ++ prj_arg_name prj ++ "/"
  let route := match pkg with
    | some (.inl p) => route ++ p.name
    | some (.inr s) => if s = "" then route else route ++ s
    | none => route
  let req : ApiRequest :=
    { route := route, method := "DELETE",
      params := if force then some [("force", "1")] else none, payload := none }
  (env.apiCall req, [.api req])

/-- The directory-listing request of `fetch_file_list` (`project.py` line
324): a GET (the transport's default method) to `/source/{prj}/{pkg}`. -/
def file_list_request (prj_name pkg_name : String) : ApiRequest :=
  { route := "/source/" ++ prj_name ++ "/" ++ pkg_name, method := "GET",
    params := none, payload := none }

/-- The projection of one directory entry inside the comprehension of
`fetch_file_list` (`project.py` lines 320-327): a `File` with the entry's
fields copied verbatim when `name`, `md5`, `size` and `mtime` are all
truthy, nothing otherwise. -/
def file_of_entry (e : DirEntry) : Option File :=
  match e.name, e.md5, e.size, e.mtime with
  | some n, some m, some s, some t =>
    if n ≠ "" ∧ m ≠ "" ∧ s ≠ 0 ∧ t ≠ 0 then some ⟨n, m, s, t⟩ else none
  | _, _, _, _ => none

/-- Name resolution for a `Package | str` argument (`_prj_and_pkg_name`,
`project.py` lines 292-296). -/
def pkg_arg_name : Package ⊕ String → String
  | .inl p => p.name
  | .inr s => s

/-- The file-listing operation `fetch_file_list` (`project.py` lines
314-328): fetch the source directory listing and keep one `File` per entry
passing the truthiness filter, in response order. -/
def fetch_file_list (env : Env) (prj : Project ⊕ String) (pkg : Package ⊕ String) :
    Except ObsError (List File) × List NetRequest :=
  let req := file_list_request (prj_arg_name prj) (pkg_arg_name pkg)
  (match env.fetchDirectory req with
   | .error e => .error e
   | .ok dir => .ok (dir.entry.filterMap file_of_entry),
   [.api req])

deriving instance DecidableEq for Except

/-- Resolved members of a single owner's group batch when every fetch
succeeds, the empty list otherwise. -/
def owner_members_ok (env : Env) (groups_to_ignore : List String) (o : Owner) :
    List Person2 :=
  match (fetch_group_members env groups_to_ignore o).1 with
  | .ok l => l
  | .error _ => []

/-- Whether a network request is a direct `api_request` call. -/
def NetRequest.isApi : NetRequest → Bool
  | .api _ => true
  | .groupFetch _ => false

/-- A benign environment: every plain API call succeeds, everything else
fails with a transport error. -/
def env0 : Env :=
  { ownerSearch := fun _ => .error (.transport "down"),
    fetchGroup := fun _ => .error (.transport "down"),
    apiCall := fun _ => .ok (),
    fetchDirectory := fun _ => .error (.transport "down") }

/-- The single owner record of the end-to-end scenario: project `home:x`,
package `pkgA`, direct person `alice`, group reference `grp1`. -/
def ownerA : Owner := ⟨some "home:x", some "pkgA", [⟨"alice"⟩], [⟨"grp1"⟩]⟩

/-- The environment of the end-to-end scenario: the owner search returns
exactly `ownerA`, and `grp1` resolves to maintainer `bob` with no plain
members. -/
def envA : Env :=
  { ownerSearch := fun _ => .ok ⟨[ownerA]⟩,
    fetchGroup := fun n =>
      if n = "grp1" then .ok ⟨[⟨"bob", "maintainer"⟩], []⟩ else .error (.transport "404"),
    apiCall := fun _ => .ok (),
    fetchDirectory := fun _ => .error (.transport "down") }

/-- C1: in the scenario where the owner search returns exactly one owner
record with project `home:x`, package `pkgA`, direct person `alice` and
group reference `grp1`, and `grp1` resolves to maintainer `bob` with no
plain members, `search_for_maintainers` for package name `pkgA` with no
ignored groups returns package-scope maintainers exactly `{alice, bob}` and
an empty project scope. -/
theorem search_for_maintainers_end_to_end_scenario :
    ((search_for_maintainers envA none (some "pkgA") none none).1.map
      (fun pm => (pm.package.toFinset, pm.project))) =
      .ok ({⟨"alice"⟩, ⟨"bob"⟩}, []) := by decide

/-- C10: when both a package record and a non-empty package name are
supplied, `search_for_maintainers` does not fail on the combination: the
name resolves to the `pkg_name` argument and the whole call, result and
issued requests alike, equals the call with the name alone. -/
theorem search_pkg_argument_ignored (env : Env) (P : Package) (n : String)
    (roles groups_to_ignore : Option (List String)) (hn : n ≠ "") :
    search_for_maintainers env (some P) (some n) roles groups_to_ignore =
      search_for_maintainers env none (some n) roles groups_to_ignore ∧
    resolve_pkg_name (some P) (some n) = .ok n := by
  have h : optStrTruthy (some n) = true := by simp [optStrTruthy, hn]
  exact ⟨by simp [search_for_maintainers, resolve_pkg_name, h],
    by simp [resolve_pkg_name, h]⟩

/-- Witness for C10 at a concrete input. -/
theorem search_pkg_argument_ignored_witness :
    search_for_maintainers env0 (some ⟨"pkgB", "t", "", none⟩) (some "pkgA") none none =
      search_for_maintainers env0 none (some "pkgA") none none ∧
    resolve_pkg_name (some ⟨"pkgB", "t", "", none⟩) (some "pkgA") = .ok "pkgA" :=
  search_pkg_argument_ignored env0 ⟨"pkgB", "t", "", none⟩ "pkgA" none none (by decide)

/-- A project record used by the `send_meta` counterexample. -/
def prjX : Project := { name := "proj", title := "t" }

/-- C3 counterexample: supplying a project record together with a bare
package name is not one of the four documented target shapes, yet the call
does not fail: it dispatches on the project-record condition and issues one
network request. -/
theorem send_meta_extra_argument_counterexample :
    (send_meta env0 (some prjX) none none none (some "x") none).1 = .ok () ∧
    (send_meta env0 (some prjX) none none none (some "x") none).2.length = 1 ∧
    optStrTruthy (some "x") = true :=
  ⟨rfl, rfl, by decide⟩

/-- C3 as amended: when none of the four dispatch conditions of `send_meta`
holds, the call fails with the `assert False` contract violation, issues no
network request, and the error is distinguishable from a transport error. -/
theorem send_meta_contract_violation (env : Env) (prj : Option Project)
    (prj_name : Option String) (prj_meta : Option ETElement) (pkg : Option Package)
    (pkg_name : Option String) (pkg_meta : Option ETElement)
    (h1 : send_meta_cond1 prj pkg = false) (h2 : send_meta_cond2 prj pkg = false)
    (h3 : send_meta_cond3 prj_name pkg_name pkg_meta = false)
    (h4 : send_meta_cond4 prj_name prj_meta = false) :
    send_meta env prj prj_name prj_meta pkg pkg_name pkg_meta =
      (.error (.contract "Invalid parameter combination"), []) ∧
    ∀ s, ObsError.contract "Invalid parameter combination" ≠ .transport s := by
  constructor
  · cases prj with
    | some p =>
      cases pkg with
      | some k => simp [send_meta_cond1] at h1
      | none => simp [send_meta_cond2] at h2
    | none => simp [send_meta, h3, h4]
  · intro s
    simp

/-- Witness for C3: with no arguments at all, `send_meta` fails with the
contract violation and an empty request trace. -/
theorem send_meta_contract_violation_witness :
    send_meta env0 none none none none none none =
      (.error (.contract "Invalid parameter combination"), []) ∧
    ∀ s, ObsError.contract "Invalid parameter combination" ≠ .transport s :=
  send_meta_contract_violation env0 none none none none none none rfl rfl rfl rfl

/-- C8 counterexample: deleting a project without a package issues the
DELETE against `/source/home:x/`, with a trailing slash, which differs from
the claimed path `/source/home:x`. -/
theorem delete_project_route_counterexample :
    (delete env0 (.inr "home:x") none false).2 =
      [.api { route := "/source/home:x/", method := "DELETE",
              params := none, payload := none }] ∧
    ("/source/home:x/" : String) ≠ "/source/home:x" :=
  ⟨rfl, by decide⟩

/-- C8 as amended: for every project name `p` and package name `q`, `delete`
issues exactly one DELETE request, to `/source/{p}/{q}` when a package is
supplied and to `/source/{p}/` (trailing slash) when none is, with the
`force=1` query parameter present exactly when `force` is true. -/
theorem delete_request_shape (env : Env) (p q : String) (force : Bool) :
    delete env (.inr p) (some (.inr q)) force =
      (env.apiCall ⟨"/source/" ++ p ++ "/" ++ q, "DELETE",
          if force then some [("force", "1")] else none, none⟩,
       [.api ⟨"/source/" ++ p ++ "/" ++ q, "DELETE",
          if force then some [("force", "1")] else none, none⟩]) ∧
    delete env (.inr p) none force =
      (env.apiCall ⟨"/source/" ++ p ++ "/", "DELETE",
          if force then some [("force", "1")] else none, none⟩,
       [.api ⟨"/source/" ++ p ++ "/", "DELETE",
          if force then some [("force", "1")] else none, none⟩]) := by
  constructor
  · by_cases hq : q = ""
    · subst hq
      simp [delete, prj_arg_name]
    · simp [delete, prj_arg_name, hq]
  · rfl

theorem gather_groups_ok_mem (env : Env) (names : List String) (gs : List UserGroup)
    (h : gather_groups env names = .ok gs) :
    ∀ nm ∈ names, ∃ g, env.fetchGroup nm = .ok g := by
  induction names generalizing gs with
  | nil => intro nm hnm; cases hnm
  | cons n rest ih =>
    intro nm hnm
    simp only [gather_groups] at h
    cases hfg : env.fetchGroup n with
    | error e => rw [hfg] at h; cases h
    | ok g =>
      rw [hfg] at h
      cases hrest : gather_groups env rest with
      | error e => rw [hrest] at h; cases h
      | ok gs2 =>
        rcases List.mem_cons.mp hnm with hnm | hnm
        · exact ⟨g, hnm ▸ hfg⟩
        · exact ih gs2 hrest nm hnm

theorem gather_groups_error (env : Env) (names : List String) (e : ObsError)
    (h : gather_groups env names = .error e) :
    ∃ nm ∈ names, env.fetchGroup nm = .error e := by
  induction names with
  | nil => cases h
  | cons n rest ih =>
    simp only [gather_groups] at h
    cases hfg : env.fetchGroup n with
    | error e2 =>
      rw [hfg] at h
      injection h with h2
      exact ⟨n, List.mem_cons_self n rest, h2 ▸ hfg⟩
    | ok g =>
      rw [hfg] at h
      cases hrest : gather_groups env rest with
      | error e2 =>
        rw [hrest] at h
        injection h with h2
        obtain ⟨nm, hnm, hfg2⟩ := ih (h2 ▸ hrest)
        exact ⟨nm, List.mem_cons_of_mem n hnm, hfg2⟩
      | ok gs2 => rw [hrest] at h; cases h

theorem gather_groups_congr (env env2 : Env) (names : List String)
    (h : ∀ nm ∈ names, env.fetchGroup nm = env2.fetchGroup nm) :
    gather_groups env names = gather_groups env2 names := by
  induction names with
  | nil => rfl
  | cons n rest ih =>
    simp only [gather_groups]
    rw [h n (List.mem_cons_self n rest),
      ih (fun nm hnm => h nm (List.mem_cons_of_mem n hnm))]

theorem owner_fetch_names_not_ignored (groups_to_ignore : List String) (o : Owner)
    (nm : String) (h : nm ∈ owner_fetch_names groups_to_ignore o) :
    nm ∉ groups_to_ignore := by
  have := (List.mem_filter.mp h).2
  exact of_decide_eq_true this

theorem owner_fetch_names_of_group (groups_to_ignore : List String) (o : Owner)
    (g : GroupRef) (hg : g ∈ o.group) (hgi : g.name ∉ groups_to_ignore) :
    g.name ∈ owner_fetch_names groups_to_ignore o :=
  List.mem_filter.mpr ⟨List.mem_map_of_mem GroupRef.name hg, decide_eq_true hgi⟩

theorem fetch_group_members_error (env : Env) (gti : List String) (o : Owner)
    (e : ObsError) (h : (fetch_group_members env gti o).1 = .error e) :
    ∃ nm ∈ owner_fetch_names gti o, env.fetchGroup nm = .error e := by
  simp only [fetch_group_members] at h
  cases hg : gather_groups env (owner_fetch_names gti o) with
  | error e2 =>
    rw [hg] at h
    injection h with h2
    exact gather_groups_error env _ e (h2 ▸ hg)
  | ok gs => rw [hg] at h; cases h

theorem fetch_group_members_ok_val (env : Env) (gti : List String) (o : Owner)
    (l : List Person2) (h : (fetch_group_members env gti o).1 = .ok l) :
    owner_members_ok env gti o = l := by
  simp [owner_members_ok, h]

theorem fetch_group_members_ok_fetch (env : Env) (gti : List String) (o : Owner)
    (l : List Person2) (h : (fetch_group_members env gti o).1 = .ok l) :
    ∀ nm ∈ owner_fetch_names gti o, ∃ g, env.fetchGroup nm = .ok g := by
  simp only [fetch_group_members] at h
  cases hg : gather_groups env (owner_fetch_names gti o) with
  | error e2 => rw [hg] at h; cases h
  | ok gs => exact gather_groups_ok_mem env _ gs hg

theorem fetch_group_members_congr (env env2 : Env) (gti : List String) (o : Owner)
    (h : ∀ nm, nm ∉ gti → env.fetchGroup nm = env2.fetchGroup nm) :
    fetch_group_members env gti o = fetch_group_members env2 gti o := by
  simp only [fetch_group_members]
  rw [gather_groups_congr env env2 _
    (fun nm hnm => h nm (owner_fetch_names_not_ignored gti o nm hnm))]

theorem fetch_group_members_trace (env : Env) (gti : List String) (o : Owner)
    (r : NetRequest) (hr : r ∈ (fetch_group_members env gti o).2) :
    ∃ nm, r = .groupFetch nm ∧ nm ∉ gti := by
  simp only [fetch_group_members] at hr
  rcases List.mem_map.mp hr with ⟨nm, hnm, hr2⟩
  exact ⟨nm, hr2.symm, owner_fetch_names_not_ignored gti o nm hnm⟩

theorem owner_branch_result_ok (env : Env) (gti : List String) (o : Owner)
    (tk : Bool) (c : List Person2) (t : List NetRequest)
    (h : owner_branch_result env gti o tk = (.ok c, t)) :
    c = (if tk then o.person ++ owner_members_ok env gti o else []) := by
  cases tk with
  | false =>
    simp only [owner_branch_result, Bool.false_eq_true, if_false] at h ⊢
    have h1 : Except.ok c = Except.ok ([] : List Person2) := (congrArg Prod.fst h).symm
    injection h1
  | true =>
    simp only [owner_branch_result, if_true] at h ⊢
    rcases hfg : fetch_group_members env gti o with ⟨r, tr⟩
    rw [hfg] at h
    cases r with
    | error e => cases h
    | ok mems =>
      have h1 : Except.ok (o.person ++ mems) = Except.ok c := congrArg Prod.fst h
      injection h1 with h1
      have h2 := fetch_group_members_ok_val env gti o mems (by simp [hfg])
      rw [h2, h1]

theorem owner_branch_result_error (env : Env) (gti : List String) (o : Owner)
    (tk : Bool) (e : ObsError) (t : List NetRequest)
    (h : owner_branch_result env gti o tk = (.error e, t)) :
    tk = true ∧ ∃ nm ∈ owner_fetch_names gti o, env.fetchGroup nm = .error e := by
  cases tk with
  | false => cases h
  | true =>
    simp only [owner_branch_result, if_true] at h
    rcases hfg : fetch_group_members env gti o with ⟨r, tr⟩
    rw [hfg] at h
    cases r with
    | error e2 =>
      have h1 : Except.error e2 = Except.error e := congrArg Prod.fst h
      injection h1 with h1
      exact ⟨rfl, fetch_group_members_error env gti o e (by simp [hfg, h1])⟩
    | ok mems => cases h

theorem owner_branch_result_ok_fetch (env : Env) (gti : List String) (o : Owner)
    (c : List Person2) (t : List NetRequest)
    (h : owner_branch_result env gti o true = (.ok c, t)) :
    ∃ l, (fetch_group_members env gti o).1 = .ok l := by
  simp only [owner_branch_result, if_true] at h
  rcases hfg : fetch_group_members env gti o with ⟨r, tr⟩
  rw [hfg] at h
  cases r with
  | error e => cases h
  | ok mems => exact ⟨mems, by simp [hfg]⟩

theorem owner_branch_result_trace (env : Env) (gti : List String) (o : Owner)
    (tk : Bool) (r : NetRequest) (hr : r ∈ (owner_branch_result env gti o tk).2) :
    ∃ nm, r = .groupFetch nm ∧ nm ∉ gti := by
  cases tk with
  | false => cases hr
  | true =>
    simp only [owner_branch_result, if_true] at hr
    rcases hfg : fetch_group_members env gti o with ⟨res, tr⟩
    rw [hfg] at hr
    have htr : tr = (fetch_group_members env gti o).2 := by rw [hfg]
    cases res with
    | error e => exact fetch_group_members_trace env gti o r (htr ▸ hr)
    | ok mems => exact fetch_group_members_trace env gti o r (htr ▸ hr)

theorem owner_branch_result_congr (env env2 : Env) (gti : List String) (o : Owner)
    (tk : Bool) (h : ∀ nm, nm ∉ gti → env.fetchGroup nm = env2.fetchGroup nm) :
    owner_branch_result env gti o tk = owner_branch_result env2 gti o tk := by
  cases tk with
  | false => rfl
  | true =>
    simp only [owner_branch_result, if_true]
    rw [fetch_group_members_congr env env2 gti o h]

theorem process_owner_ok (env : Env) (n : String) (gti : List String) (o : Owner)
    (acc : List Person2 × List Person2) (x y : List Person2) (t : List NetRequest)
    (h : process_owner env n gti o acc = (.ok (x, y), t)) :
    x = acc.1 ++ (if owner_pkg_branch n o then o.person ++ owner_members_ok env gti o else []) ∧
    y = acc.2 ++ (if owner_prj_branch o then o.person ++ owner_members_ok env gti o else []) := by
  simp only [process_owner] at h
  rcases h1 : owner_branch_result env gti o (owner_pkg_branch n o) with ⟨r1, t1⟩
  rw [h1] at h
  cases r1 with
  | error e => cases h
  | ok c1 =>
    rcases h2 : owner_branch_result env gti o (owner_prj_branch o) with ⟨r2, t2⟩
    rw [h2] at h
    cases r2 with
    | error e => cases h
    | ok c2 =>
      have hx : Except.ok ((acc.1 ++ c1, acc.2 ++ c2) : List Person2 × List Person2) =
          Except.ok (x, y) := congrArg Prod.fst h
      injection hx with hx
      have hc1 := owner_branch_result_ok env gti o _ c1 t1 h1
      have hc2 := owner_branch_result_ok env gti o _ c2 t2 h2
      have hx1 : acc.1 ++ c1 = x := congrArg Prod.fst hx
      have hy1 : acc.2 ++ c2 = y := congrArg Prod.snd hx
      exact ⟨by rw [← hx1, hc1], by rw [← hy1, hc2]⟩

theorem process_owner_error (env : Env) (n : String) (gti : List String) (o : Owner)
    (acc : List Person2 × List Person2) (e : ObsError) (t : List NetRequest)
    (h : process_owner env n gti o acc = (.error e, t)) :
    (owner_pkg_branch n o = true ∨ owner_prj_branch o = true) ∧
    ∃ nm ∈ owner_fetch_names gti o, env.fetchGroup nm = .error e := by
  simp only [process_owner] at h
  rcases h1 : owner_branch_result env gti o (owner_pkg_branch n o) with ⟨r1, t1⟩
  rw [h1] at h
  cases r1 with
  | error e1 =>
    have hx : Except.error e1 = Except.error e :=
      congrArg Prod.fst h
    injection hx with hx
    obtain ⟨htk, hex⟩ := owner_branch_result_error env gti o _ e1 t1 h1
    exact ⟨Or.inl htk, hx ▸ hex⟩
  | ok c1 =>
    rcases h2 : owner_branch_result env gti o (owner_prj_branch o) with ⟨r2, t2⟩
    rw [h2] at h
    cases r2 with
    | error e2 =>
      have hx : Except.error e2 = Except.error e :=
        congrArg Prod.fst h
      injection hx with hx
      obtain ⟨htk, hex⟩ := owner_branch_result_error env gti o _ e2 t2 h2
      exact ⟨Or.inr htk, hx ▸ hex⟩
    | ok c2 => cases h

theorem process_owner_ok_fetch (env : Env) (n : String) (gti : List String) (o : Owner)
    (acc acc2 : List Person2 × List Person2) (t : List NetRequest)
    (h : process_owner env n gti o acc = (.ok acc2, t))
    (hbr : owner_pkg_branch n o = true ∨ owner_prj_branch o = true) :
    ∃ l, (fetch_group_members env gti o).1 = .ok l := by
  simp only [process_owner] at h
  rcases h1 : owner_branch_result env gti o (owner_pkg_branch n o) with ⟨r1, t1⟩
  rw [h1] at h
  cases r1 with
  | error e => cases h
  | ok c1 =>
    rcases h2 : owner_branch_result env gti o (owner_prj_branch o) with ⟨r2, t2⟩
    rw [h2] at h
    cases r2 with
    | error e => cases h
    | ok c2 =>
      rcases hbr with hbr | hbr
      · exact owner_branch_result_ok_fetch env gti o c1 t1 (hbr ▸ h1)
      · exact owner_branch_result_ok_fetch env gti o c2 t2 (hbr ▸ h2)

theorem process_owner_trace (env : Env) (n : String) (gti : List String) (o : Owner)
    (acc : List Person2 × List Person2) (r : NetRequest)
    (hr : r ∈ (process_owner env n gti o acc).2) :
    ∃ nm, r = .groupFetch nm ∧ nm ∉ gti := by
  simp only [process_owner] at hr
  split at hr
  · rename_i e t1 heq
    exact owner_branch_result_trace env gti o _ r (by rw [heq]; exact hr)
  · rename_i hmatch c1 t1 heq
    rcases h2 : owner_branch_result env gti o (owner_prj_branch o) with ⟨r2, t2⟩
    rw [h2] at hr
    cases r2 with
    | error e =>
      rcases List.mem_append.mp hr with hr1 | hr1
      · exact owner_branch_result_trace env gti o _ r (by rw [heq]; exact hr1)
      · exact owner_branch_result_trace env gti o _ r (by rw [h2]; exact hr1)
    | ok c2 =>
      rcases List.mem_append.mp hr with hr1 | hr1
      · exact owner_branch_result_trace env gti o _ r (by rw [heq]; exact hr1)
      · exact owner_branch_result_trace env gti o _ r (by rw [h2]; exact hr1)

theorem process_owner_congr (env env2 : Env) (n : String) (gti : List String)
    (o : Owner) (acc : List Person2 × List Person2)
    (h : ∀ nm, nm ∉ gti → env.fetchGroup nm = env2.fetchGroup nm) :
    process_owner env n gti o acc = process_owner env2 n gti o acc := by
  simp only [process_owner]
  rw [owner_branch_result_congr env env2 gti o (owner_pkg_branch n o) h,
    owner_branch_result_congr env env2 gti o (owner_prj_branch o) h]

/-- Everything the owner loop appends to the package-scope list: the direct
persons and resolved group members of exactly those owner records taking the
package-scope branch. -/
def pkg_scope_contrib (env : Env) (gti : List String) (n : String)
    (owners : List Owner) : List Person2 :=
  (owners.filter (owner_pkg_branch n)).flatMap
    (fun o => o.person ++ owner_members_ok env gti o)

/-- Everything the owner loop appends to the project-scope list: the direct
persons and resolved group members of exactly those owner records taking the
project-scope branch. -/
def prj_scope_contrib (env : Env) (gti : List String) (owners : List Owner) :
    List Person2 :=
  (owners.filter owner_prj_branch).flatMap
    (fun o => o.person ++ owner_members_ok env gti o)

theorem pkg_scope_contrib_cons (env : Env) (gti : List String) (n : String)
    (o : Owner) (rest : List Owner) :
    pkg_scope_contrib env gti n (o :: rest) =
      (if owner_pkg_branch n o then o.person ++ owner_members_ok env gti o else []) ++
        pkg_scope_contrib env gti n rest := by
  cases hb : owner_pkg_branch n o <;>
    simp [pkg_scope_contrib, List.filter_cons, hb]

theorem prj_scope_contrib_cons (env : Env) (gti : List String)
    (o : Owner) (rest : List Owner) :
    prj_scope_contrib env gti (o :: rest) =
      (if owner_prj_branch o then o.person ++ owner_members_ok env gti o else []) ++
        prj_scope_contrib env gti rest := by
  cases hb : owner_prj_branch o <;>
    simp [prj_scope_contrib, List.filter_cons, hb]

theorem process_owners_ok (env : Env) (n : String) (gti : List String)
    (owners : List Owner) (acc : List Person2 × List Person2)
    (x y : List Person2) (t : List NetRequest)
    (h : process_owners env n gti owners acc = (.ok (x, y), t)) :
    x = acc.1 ++ pkg_scope_contrib env gti n owners ∧
    y = acc.2 ++ prj_scope_contrib env gti owners := by
  induction owners generalizing acc x y t with
  | nil =>
    simp only [process_owners] at h
    have hx : Except.ok acc = Except.ok ((x, y) : List Person2 × List Person2) :=
      congrArg Prod.fst h
    injection hx with hx
    have hx1 : acc.1 = x := congrArg Prod.fst hx
    have hy1 : acc.2 = y := congrArg Prod.snd hx
    simp [pkg_scope_contrib, prj_scope_contrib, ← hx1, ← hy1]
  | cons o rest ih =>
    simp only [process_owners] at h
    split at h
    · cases h
    · rename_i acc2 t1 heq
      rcases h2 : process_owners env n gti rest acc2 with ⟨r2, t2⟩
      rw [h2] at h
      have hfst : r2 = Except.ok (x, y) := congrArg Prod.fst h
      obtain ⟨hx2, hy2⟩ := ih acc2 x y t2 (by rw [h2, hfst])
      obtain ⟨ha1, ha2⟩ := process_owner_ok env n gti o acc acc2.1 acc2.2 t1 heq
      constructor
      · rw [hx2, ha1, pkg_scope_contrib_cons, List.append_assoc]
      · rw [hy2, ha2, prj_scope_contrib_cons, List.append_assoc]

theorem process_owners_error (env : Env) (n : String) (gti : List String)
    (owners : List Owner) (acc : List Person2 × List Person2)
    (e : ObsError) (t : List NetRequest)
    (h : process_owners env n gti owners acc = (.error e, t)) :
    ∃ o ∈ owners, (owner_pkg_branch n o = true ∨ owner_prj_branch o = true) ∧
      ∃ nm ∈ owner_fetch_names gti o, env.fetchGroup nm = .error e := by
  induction owners generalizing acc t with
  | nil => cases h
  | cons o rest ih =>
    simp only [process_owners] at h
    split at h
    · rename_i e1 t1 heq
      have hfst : Except.error e1 = Except.error e :=
        congrArg Prod.fst h
      injection hfst with he
      obtain ⟨hbr, hex⟩ := process_owner_error env n gti o acc e1 t1 heq
      exact ⟨o, List.mem_cons_self o rest, hbr, he ▸ hex⟩
    · rename_i acc2 t1 heq
      rcases h2 : process_owners env n gti rest acc2 with ⟨r2, t2⟩
      rw [h2] at h
      have hfst : r2 = Except.error e := congrArg Prod.fst h
      obtain ⟨o2, ho2, rest2⟩ := ih acc2 t2 (by rw [h2, hfst])
      exact ⟨o2, List.mem_cons_of_mem o ho2, rest2⟩

theorem process_owners_ok_fetch (env : Env) (n : String) (gti : List String)
    (owners : List Owner) (acc acc2 : List Person2 × List Person2)
    (t : List NetRequest) (h : process_owners env n gti owners acc = (.ok acc2, t)) :
    ∀ o ∈ owners, (owner_pkg_branch n o = true ∨ owner_prj_branch o = true) →
      ∃ l, (fetch_group_members env gti o).1 = .ok l := by
  induction owners generalizing acc acc2 t with
  | nil => intro o ho; cases ho
  | cons o rest ih =>
    intro o2 ho2 hbr
    simp only [process_owners] at h
    split at h
    · cases h
    · rename_i accMid t1 heq
      rcases h2 : process_owners env n gti rest accMid with ⟨r2, t2⟩
      rw [h2] at h
      have hfst : r2 = Except.ok acc2 := congrArg Prod.fst h
      rcases List.mem_cons.mp ho2 with ho2 | ho2
      · have hbr2 : owner_pkg_branch n o = true ∨ owner_prj_branch o = true := ho2 ▸ hbr
        exact ho2.symm ▸ process_owner_ok_fetch env n gti o acc accMid t1 heq hbr2
      · exact ih accMid acc2 t2 (by rw [h2, hfst]) o2 ho2 hbr

theorem process_owners_trace (env : Env) (n : String) (gti : List String)
    (owners : List Owner) (acc : List Person2 × List Person2) (r : NetRequest)
    (hr : r ∈ (process_owners env n gti owners acc).2) :
    ∃ nm, r = .groupFetch nm ∧ nm ∉ gti := by
  induction owners generalizing acc with
  | nil => cases hr
  | cons o rest ih =>
    simp only [process_owners] at hr
    split at hr
    · rename_i e t1 heq
      exact process_owner_trace env n gti o acc r (by rw [heq]; exact hr)
    · rename_i hmatch acc2 t1 heq
      rcases h2 : process_owners env n gti rest acc2 with ⟨r2, t2⟩
      rw [h2] at hr
      rcases List.mem_append.mp hr with hr1 | hr1
      · exact process_owner_trace env n gti o acc r (by rw [heq]; exact hr1)
      · exact ih acc2 (by rw [h2]; exact hr1)

theorem process_owners_congr (env env2 : Env) (n : String) (gti : List String)
    (owners : List Owner) (acc : List Person2 × List Person2)
    (h : ∀ nm, nm ∉ gti → env.fetchGroup nm = env2.fetchGroup nm) :
    process_owners env n gti owners acc = process_owners env2 n gti owners acc := by
  induction owners generalizing acc with
  | nil => rfl
  | cons o rest ih =>
    simp only [process_owners]
    rw [process_owner_congr env env2 n gti o acc h]
    rcases h1 : process_owner env2 n gti o acc with ⟨r1, t1⟩
    cases r1 with
    | error e => rfl
    | ok acc2 => exact congrArg (fun r => (r.1, t1 ++ r.2)) (ih acc2)

theorem search_ok_char (env : Env) (pkg : Option Package) (pkg_name : Option String)
    (roles groups_to_ignore : Option (List String)) (pm : PackageMaintainers)
    (h : (search_for_maintainers env pkg pkg_name roles groups_to_ignore).1 = .ok pm) :
    ∃ n owners, resolve_pkg_name pkg pkg_name = .ok n ∧
      env.ownerSearch (owner_search_request n roles) = .ok owners ∧
      pm.package = (pkg_scope_contrib env (groups_to_ignore.getD []) n owners.owner).dedup ∧
      pm.project = (prj_scope_contrib env (groups_to_ignore.getD []) owners.owner).dedup ∧
      (∀ o ∈ owners.owner,
        (owner_pkg_branch n o = true ∨ owner_prj_branch o = true) →
        ∃ l, (fetch_group_members env (groups_to_ignore.getD []) o).1 = .ok l) := by
  cases hres : resolve_pkg_name pkg pkg_name with
  | error e => simp [search_for_maintainers, hres] at h
  | ok n =>
    cases hos : env.ownerSearch (owner_search_request n roles) with
    | error e => simp [search_for_maintainers, hres, hos] at h
    | ok owners =>
      rcases hpo : process_owners env n (groups_to_ignore.getD [])
          owners.owner ([], []) with ⟨r, t⟩
      cases r with
      | error e => simp [search_for_maintainers, hres, hos, hpo] at h
      | ok acc =>
        rcases acc with ⟨pkgM, prjM⟩
        simp only [search_for_maintainers, hres, hos, hpo] at h
        injection h with h
        obtain ⟨hx, hy⟩ := process_owners_ok env n (groups_to_ignore.getD [])
          owners.owner ([], []) pkgM prjM t hpo
        simp only [List.nil_append] at hx hy
        refine ⟨n, owners, rfl, hos, ?_, ?_,
          process_owners_ok_fetch env n _ owners.owner ([], []) (pkgM, prjM) t hpo⟩
        · rw [← h, hx]
        · rw [← h, hy]

theorem search_error_char (env : Env) (pkg : Option Package) (pkg_name : Option String)
    (roles groups_to_ignore : Option (List String)) (n : String)
    (owners : OwnerCollection) (e : ObsError)
    (hres : resolve_pkg_name pkg pkg_name = .ok n)
    (hos : env.ownerSearch (owner_search_request n roles) = .ok owners)
    (h : (search_for_maintainers env pkg pkg_name roles groups_to_ignore).1 = .error e) :
    ∃ o ∈ owners.owner, (owner_pkg_branch n o = true ∨ owner_prj_branch o = true) ∧
      ∃ nm ∈ owner_fetch_names (groups_to_ignore.getD []) o,
        env.fetchGroup nm = .error e := by
  rcases hpo : process_owners env n (groups_to_ignore.getD [])
      owners.owner ([], []) with ⟨r, t⟩
  cases r with
  | error e2 =>
    simp only [search_for_maintainers, hres, hos, hpo] at h
    injection h with h
    exact h ▸ process_owners_error env n (groups_to_ignore.getD [])
      owners.owner ([], []) e2 t hpo
  | ok acc =>
    rcases acc with ⟨pkgM, prjM⟩
    simp [search_for_maintainers, hres, hos, hpo] at h

theorem search_trace_char (env : Env) (pkg : Option Package) (pkg_name : Option String)
    (roles groups_to_ignore : Option (List String)) (r : NetRequest)
    (hr : r ∈ (search_for_maintainers env pkg pkg_name roles groups_to_ignore).2) :
    (∃ n, resolve_pkg_name pkg pkg_name = .ok n ∧
      r = .api (owner_search_request n roles)) ∨
    ∃ nm, r = .groupFetch nm ∧ nm ∉ groups_to_ignore.getD [] := by
  cases hres : resolve_pkg_name pkg pkg_name with
  | error e => simp [search_for_maintainers, hres] at hr
  | ok n =>
    cases hos : env.ownerSearch (owner_search_request n roles) with
    | error e =>
      simp only [search_for_maintainers, hres, hos] at hr
      left
      exact ⟨n, rfl, by simpa using hr⟩
    | ok owners =>
      rcases hpo : process_owners env n (groups_to_ignore.getD [])
          owners.owner ([], []) with ⟨res, t⟩
      have ht : t = (process_owners env n (groups_to_ignore.getD [])
          owners.owner ([], [])).2 := by rw [hpo]
      cases res with
      | error e =>
        simp only [search_for_maintainers, hres, hos, hpo] at hr
        rcases List.mem_cons.mp hr with hr1 | hr1
        · exact Or.inl ⟨n, rfl, hr1⟩
        · exact Or.inr (process_owners_trace env n _ owners.owner ([], []) r (ht ▸ hr1))
      | ok acc =>
        rcases acc with ⟨pkgM, prjM⟩
        simp only [search_for_maintainers, hres, hos, hpo] at hr
        rcases List.mem_cons.mp hr with hr1 | hr1
        · exact Or.inl ⟨n, rfl, hr1⟩
        · exact Or.inr (process_owners_trace env n _ owners.owner ([], []) r (ht ▸ hr1))

theorem search_api_filter (env : Env) (pkg : Option Package) (pkg_name : Option String)
    (roles groups_to_ignore : Option (List String)) (n : String)
    (hres : resolve_pkg_name pkg pkg_name = .ok n) :
    ((search_for_maintainers env pkg pkg_name roles groups_to_ignore).2.filter
      NetRequest.isApi) = [.api (owner_search_request n roles)] := by
  cases hos : env.ownerSearch (owner_search_request n roles) with
  | error e =>
    simp [search_for_maintainers, hres, hos, List.filter, NetRequest.isApi]
  | ok owners =>
    rcases hpo : process_owners env n (groups_to_ignore.getD [])
        owners.owner ([], []) with ⟨res, t⟩
    have ht : t = (process_owners env n (groups_to_ignore.getD [])
        owners.owner ([], [])).2 := by rw [hpo]
    have hfilter : t.filter NetRequest.isApi = [] := by
      refine List.filter_eq_nil_iff.mpr (fun a ha => ?_)
      obtain ⟨nm, hae, _⟩ :=
        process_owners_trace env n _ owners.owner ([], []) a (ht ▸ ha)
      simp [hae, NetRequest.isApi]
    cases res with
    | error e =>
      simp only [search_for_maintainers, hres, hos, hpo]
      simp [List.filter_cons, NetRequest.isApi, hfilter]
    | ok acc =>
      rcases acc with ⟨pkgM, prjM⟩
      simp only [search_for_maintainers, hres, hos, hpo]
      simp [List.filter_cons, NetRequest.isApi, hfilter]

theorem search_congr (env env2 : Env) (pkg : Option Package) (pkg_name : Option String)
    (roles groups_to_ignore : Option (List String))
    (hos : ∀ r, env.ownerSearch r = env2.ownerSearch r)
    (hfg : ∀ nm, nm ∉ groups_to_ignore.getD [] →
      env.fetchGroup nm = env2.fetchGroup nm) :
    search_for_maintainers env pkg pkg_name roles groups_to_ignore =
      search_for_maintainers env2 pkg pkg_name roles groups_to_ignore := by
  cases hres : resolve_pkg_name pkg pkg_name with
  | error e => simp [search_for_maintainers, hres]
  | ok n =>
    simp only [search_for_maintainers, hres]
    rw [hos (owner_search_request n roles)]
    cases hos2 : env2.ownerSearch (owner_search_request n roles) with
    | error e => rfl
    | ok owners =>
      have hcongr := process_owners_congr env env2 n (groups_to_ignore.getD [])
        owners.owner ([], []) hfg
      simp only [hcongr]

theorem branch_disjoint (n : String) (hn : n ≠ "") (o : Owner) :
    ¬(owner_pkg_branch n o = true ∧ owner_prj_branch o = true) := by
  rintro ⟨h1, h2⟩
  simp only [owner_pkg_branch, Bool.and_eq_true, decide_eq_true_eq] at h1
  simp only [owner_prj_branch, Bool.and_eq_true, Bool.not_eq_true'] at h2
  rw [h1.2] at h2
  simp [optStrTruthy, hn] at h2

theorem dedup_toFinset (l : List Person2) : l.dedup.toFinset = l.toFinset := by
  ext a
  simp

/-- The single owner record of the degenerate scenario: its package field is
the empty string, which is falsy. -/
def ownerB : Owner := ⟨some "home:x", some "", [⟨"alice"⟩], []⟩

/-- Environment of the degenerate scenario. -/
def envB : Env :=
  { ownerSearch := fun _ => .ok ⟨[ownerB]⟩,
    fetchGroup := fun _ => .error (.transport "404"),
    apiCall := fun _ => .ok (),
    fetchDirectory := fun _ => .error (.transport "down") }

/-- C2 counterexample: when the queried package name is the empty string
(resolved from a package record named `""`), an owner record whose package
field is the empty string — an empty package field — satisfies both loop
branches, so its person `alice` lands in the package-scope result, which the
claim forbids. -/
theorem search_scope_counterexample_empty_name :
    resolve_pkg_name (some ⟨"", "t", "", none⟩) none = .ok "" ∧
    optStrTruthy ownerB.package = false ∧
    (search_for_maintainers envB (some ⟨"", "t", "", none⟩) none none none).1 =
      .ok ⟨[⟨"alice"⟩], [⟨"alice"⟩]⟩ ∧
    (⟨"alice"⟩ : Person2) ∈
      (PackageMaintainers.mk [⟨"alice"⟩] [⟨"alice"⟩]).package :=
  ⟨by decide, by decide, by decide, by decide⟩

/-- C2 as amended: for a non-empty queried package name, a matching owner
record's direct persons appear in the package-scope result, an owner record
with an empty package field contributes its persons to the project-scope
result, each scope draws exactly on the owner records taking its branch
(so an empty-package owner never feeds the package scope), and no owner
record takes both branches. -/
theorem search_scope_separation (env : Env) (pkg : Option Package)
    (pkg_name : Option String) (roles groups_to_ignore : Option (List String))
    (n : String) (owners : OwnerCollection) (pm : PackageMaintainers)
    (hres : resolve_pkg_name pkg pkg_name = .ok n) (hn : n ≠ "")
    (hos : env.ownerSearch (owner_search_request n roles) = .ok owners)
    (hok : (search_for_maintainers env pkg pkg_name roles groups_to_ignore).1 = .ok pm) :
    (∀ o ∈ owners.owner, owner_pkg_branch n o = true →
      ∀ p ∈ o.person, p ∈ pm.package) ∧
    (∀ o ∈ owners.owner, owner_prj_branch o = true →
      ∀ p ∈ o.person, p ∈ pm.project) ∧
    pm.package.toFinset =
      (pkg_scope_contrib env (groups_to_ignore.getD []) n owners.owner).toFinset ∧
    pm.project.toFinset =
      (prj_scope_contrib env (groups_to_ignore.getD []) owners.owner).toFinset ∧
    (∀ o : Owner, ¬(owner_pkg_branch n o = true ∧ owner_prj_branch o = true)) := by
  obtain ⟨n2, owners2, hres2, hos2, hpk, hpr, _⟩ :=
    search_ok_char env pkg pkg_name roles groups_to_ignore pm hok
  rw [hres] at hres2
  injection hres2 with hn2
  subst hn2
  rw [hos] at hos2
  injection hos2 with how
  subst how
  refine ⟨?_, ?_, ?_, ?_, fun o => branch_disjoint n hn o⟩
  · intro o ho hbr p hp
    rw [hpk, List.mem_dedup]
    exact List.mem_flatMap.mpr
      ⟨o, List.mem_filter.mpr ⟨ho, hbr⟩, List.mem_append_left _ hp⟩
  · intro o ho hbr p hp
    rw [hpr, List.mem_dedup]
    exact List.mem_flatMap.mpr
      ⟨o, List.mem_filter.mpr ⟨ho, hbr⟩, List.mem_append_left _ hp⟩
  · rw [hpk, dedup_toFinset]
  · rw [hpr, dedup_toFinset]

/-- Witness for C2 as amended, at the end-to-end scenario environment. -/
theorem search_scope_separation_witness :
    (∀ o ∈ (OwnerCollection.mk [ownerA]).owner, owner_pkg_branch "pkgA" o = true →
      ∀ p ∈ o.person,
        p ∈ (PackageMaintainers.mk [⟨"alice"⟩, ⟨"bob"⟩] []).package) ∧
    (∀ o ∈ (OwnerCollection.mk [ownerA]).owner, owner_prj_branch o = true →
      ∀ p ∈ o.person,
        p ∈ (PackageMaintainers.mk [⟨"alice"⟩, ⟨"bob"⟩] []).project) ∧
    (PackageMaintainers.mk [⟨"alice"⟩, ⟨"bob"⟩] []).package.toFinset =
      (pkg_scope_contrib envA [] "pkgA" (OwnerCollection.mk [ownerA]).owner).toFinset ∧
    (PackageMaintainers.mk [⟨"alice"⟩, ⟨"bob"⟩] []).project.toFinset =
      (prj_scope_contrib envA [] (OwnerCollection.mk [ownerA]).owner).toFinset ∧
    (∀ o : Owner, ¬(owner_pkg_branch "pkgA" o = true ∧ owner_prj_branch o = true)) :=
  search_scope_separation envA none (some "pkgA") none none "pkgA"
    (OwnerCollection.mk [ownerA]) (PackageMaintainers.mk [⟨"alice"⟩, ⟨"bob"⟩] [])
    (by decide) (by decide) rfl (by decide)

/-- C5: whenever `search_for_maintainers` returns a result, no two entries
of the package list share a user id, and no two entries of the project list
share a user id. -/
theorem search_result_userid_nodup (env : Env) (pkg : Option Package)
    (pkg_name : Option String) (roles groups_to_ignore : Option (List String))
    (pm : PackageMaintainers)
    (hok : (search_for_maintainers env pkg pkg_name roles groups_to_ignore).1 = .ok pm) :
    pm.package.Pairwise (fun a b => a.userid ≠ b.userid) ∧
    pm.project.Pairwise (fun a b => a.userid ≠ b.userid) := by
  obtain ⟨n, owners, _, _, hpk, hpr, _⟩ :=
    search_ok_char env pkg pkg_name roles groups_to_ignore pm hok
  have hiff : ∀ a b : Person2, a ≠ b → a.userid ≠ b.userid := by
    intro a b hab h
    apply hab
    cases a
    cases b
    simp_all
  constructor
  · rw [hpk]
    exact (List.nodup_dedup _).imp (fun hab => hiff _ _ hab)
  · rw [hpr]
    exact (List.nodup_dedup _).imp (fun hab => hiff _ _ hab)

/-- Witness for C5 at the end-to-end scenario. -/
theorem search_result_userid_nodup_witness :
    (PackageMaintainers.mk [⟨"alice"⟩, ⟨"bob"⟩] []).package.Pairwise
      (fun a b => a.userid ≠ b.userid) ∧
    (PackageMaintainers.mk [⟨"alice"⟩, ⟨"bob"⟩] []).project.Pairwise
      (fun a b => a.userid ≠ b.userid) :=
  search_result_userid_nodup envA none (some "pkgA") none none
    (PackageMaintainers.mk [⟨"alice"⟩, ⟨"bob"⟩] []) (by decide)

/-- C6: a group name in `groups_to_ignore` is never the target of a
group-fetch request, and the entire output of `search_for_maintainers`,
result and request trace alike, is unchanged by arbitrary changes to what
ignored groups would resolve to — an ignored group contributes zero
members to either scope even when it would resolve successfully. -/
theorem search_ignored_group_contributes_nothing (env env2 : Env)
    (pkg : Option Package) (pkg_name : Option String)
    (roles groups_to_ignore : Option (List String)) (g : String)
    (hg : g ∈ groups_to_ignore.getD [])
    (hos : ∀ r, env.ownerSearch r = env2.ownerSearch r)
    (hfg : ∀ nm, nm ∉ groups_to_ignore.getD [] →
      env.fetchGroup nm = env2.fetchGroup nm) :
    NetRequest.groupFetch g ∉
      (search_for_maintainers env pkg pkg_name roles groups_to_ignore).2 ∧
    search_for_maintainers env pkg pkg_name roles groups_to_ignore =
      search_for_maintainers env2 pkg pkg_name roles groups_to_ignore := by
  constructor
  · intro hmem
    rcases search_trace_char env pkg pkg_name roles groups_to_ignore _ hmem with
      ⟨n, _, heq⟩ | ⟨nm, heq, hnm⟩
    · cases heq
    · injection heq with heq
      exact hnm (heq ▸ hg)
  · exact search_congr env env2 pkg pkg_name roles groups_to_ignore hos hfg

/-- A variant of the scenario environment in which the ignored group `grp1`
resolves to a different member. -/
def envA2 : Env :=
  { envA with
    fetchGroup := fun nm =>
      if nm = "grp1" then .ok ⟨[⟨"eve", "maintainer"⟩], []⟩
      else envA.fetchGroup nm }

/-- Witness for C6: `grp1` ignored, two environments differing only on what
`grp1` resolves to. -/
theorem search_ignored_group_contributes_nothing_witness :
    NetRequest.groupFetch "grp1" ∉
      (search_for_maintainers envA none (some "pkgA") none (some ["grp1"])).2 ∧
    search_for_maintainers envA none (some "pkgA") none (some ["grp1"]) =
      search_for_maintainers envA2 none (some "pkgA") none (some ["grp1"]) :=
  search_ignored_group_contributes_nothing envA envA2 none (some "pkgA") none
    (some ["grp1"]) "grp1" (by decide) (fun r => rfl)
    (fun nm hnm => by
      have hne : ¬(nm = "grp1") := by simpa using hnm
      show envA.fetchGroup nm =
        if nm = "grp1" then Except.ok ⟨[⟨"eve", "maintainer"⟩], []⟩
        else envA.fetchGroup nm
      rw [if_neg hne])

/-- C7: if the group fetch for a non-ignored group reference of a processed
owner record fails, the whole `search_for_maintainers` call fails, and the
error it fails with is itself the error of some failing group fetch of a
processed owner record. -/
theorem search_group_fetch_failure_propagates (env : Env) (pkg : Option Package)
    (pkg_name : Option String) (roles groups_to_ignore : Option (List String))
    (n : String) (owners : OwnerCollection) (o : Owner) (g : GroupRef) (e : ObsError)
    (hres : resolve_pkg_name pkg pkg_name = .ok n)
    (hos : env.ownerSearch (owner_search_request n roles) = .ok owners)
    (ho : o ∈ owners.owner)
    (hbr : owner_pkg_branch n o = true ∨ owner_prj_branch o = true)
    (hg : g ∈ o.group) (hgi : g.name ∉ groups_to_ignore.getD [])
    (herr : env.fetchGroup g.name = .error e) :
    ∃ e2, (search_for_maintainers env pkg pkg_name roles groups_to_ignore).1 =
        .error e2 ∧
      ∃ o2 ∈ owners.owner,
        (owner_pkg_branch n o2 = true ∨ owner_prj_branch o2 = true) ∧
        ∃ g2 ∈ owner_fetch_names (groups_to_ignore.getD []) o2,
          env.fetchGroup g2 = .error e2 := by
  cases hsr : (search_for_maintainers env pkg pkg_name roles groups_to_ignore).1 with
  | ok pm =>
    exfalso
    obtain ⟨n2, owners2, hres2, hos2, _, _, hfetch⟩ :=
      search_ok_char env pkg pkg_name roles groups_to_ignore pm hsr
    rw [hres] at hres2
    injection hres2 with hn2
    subst hn2
    rw [hos] at hos2
    injection hos2 with how
    subst how
    obtain ⟨l, hl⟩ := hfetch o ho hbr
    obtain ⟨ug, hug⟩ := fetch_group_members_ok_fetch env _ o l hl g.name
      (owner_fetch_names_of_group _ o g hg hgi)
    rw [herr] at hug
    cases hug
  | error e2 =>
    obtain ⟨o2, ho2, hbr2, hex⟩ := search_error_char env pkg pkg_name roles
      groups_to_ignore n owners e2 hres hos hsr
    exact ⟨e2, rfl, o2, ho2, hbr2, hex⟩

/-- Environment in which every group fetch fails with a not-found transport
error. -/
def envC7 : Env :=
  { ownerSearch := fun _ => .ok ⟨[ownerA]⟩,
    fetchGroup := fun _ => .error (.transport "404"),
    apiCall := fun _ => .ok (),
    fetchDirectory := fun _ => .error (.transport "down") }

/-- Witness for C7: the scenario owner references `grp1`, whose fetch fails. -/
theorem search_group_fetch_failure_propagates_witness :
    ∃ e2, (search_for_maintainers envC7 none (some "pkgA") none none).1 =
        .error e2 ∧
      ∃ o2 ∈ (OwnerCollection.mk [ownerA]).owner,
        (owner_pkg_branch "pkgA" o2 = true ∨ owner_prj_branch o2 = true) ∧
        ∃ g2 ∈ owner_fetch_names [] o2, envC7.fetchGroup g2 = .error e2 :=
  search_group_fetch_failure_propagates envC7 none (some "pkgA") none none
    "pkgA" (OwnerCollection.mk [ownerA]) ownerA ⟨"grp1"⟩ (.transport "404")
    (by decide) rfl (by decide) (Or.inl (by decide)) (by decide) (by decide) rfl

/-- C9: once the package name is resolved, the request trace of
`search_for_maintainers` contains exactly one direct API request: a GET to
`/search/owner` whose query carries the package name, together with a
`filter` parameter holding the comma-joined role names exactly when a
non-empty roles list was supplied. -/
theorem search_owner_search_request_unique (env : Env) (pkg : Option Package)
    (pkg_name : Option String) (roles groups_to_ignore : Option (List String))
    (n : String) (hres : resolve_pkg_name pkg pkg_name = .ok n) :
    ((search_for_maintainers env pkg pkg_name roles groups_to_ignore).2.filter
      NetRequest.isApi) =
      [.api ⟨"/search/owner", "GET",
        some (("package", n) ::
          (match roles with
           | some rs => if rs = [] then []
             else [("filter", String.intercalate "," rs)]
           | none => [])), none⟩] :=
  search_api_filter env pkg pkg_name roles groups_to_ignore n hres

/-- Witness for C9 with a two-role filter. -/
theorem search_owner_search_request_unique_witness :
    ((search_for_maintainers envA none (some "pkgA")
        (some ["maintainer", "bugowner"]) none).2.filter NetRequest.isApi) =
      [.api ⟨"/search/owner", "GET",
        some [("package", "pkgA"), ("filter", "maintainer,bugowner")], none⟩] := by
  have h := search_owner_search_request_unique envA none (some "pkgA")
    (some ["maintainer", "bugowner"]) none "pkgA" (by decide)
  simpa using h

/-- Spec-side keep condition for a directory entry, following the amended
claim's words: the name and hash are present and non-empty, the size and
modification time are present and non-zero. -/
def entry_kept_spec (e : DirEntry) : Bool :=
  optStrTruthy e.name && optStrTruthy e.md5 &&
    optIntTruthy e.size && optIntTruthy e.mtime

/-- Spec-side projection of a kept directory entry into a `File`, copying
the four fields verbatim. -/
def file_of_entry_spec (e : DirEntry) : File :=
  ⟨e.name.getD "", e.md5.getD "", e.size.getD 0, e.mtime.getD 0⟩

theorem file_of_entry_eq (e : DirEntry) :
    file_of_entry e =
      if entry_kept_spec e then some (file_of_entry_spec e) else none := by
  rcases e with ⟨nm, md, sz, mt, o1, o2, o3, o4⟩
  cases nm <;> cases md <;> cases sz <;> cases mt <;>
    simp [file_of_entry, entry_kept_spec, file_of_entry_spec,
      optStrTruthy, optIntTruthy]
  split_ifs <;> simp_all

theorem filterMap_file_eq (l : List DirEntry) :
    l.filterMap file_of_entry =
      (l.filter entry_kept_spec).map file_of_entry_spec := by
  induction l with
  | nil => rfl
  | cons e rest ih =>
    cases hk : entry_kept_spec e <;>
      simp [List.filterMap_cons, List.filter_cons, file_of_entry_eq, hk, ih]

/-- A directory entry that is complete in the claim's sense (all four fields
present, strings non-empty) but has size zero. -/
def entryZero : DirEntry :=
  ⟨some "a.txt", some "abc123", some 0, some 100, none, none, none, none⟩

/-- Directory listing holding only the zero-size entry. -/
def dirC4 : Directory := ⟨none, none, none, none, none, [entryZero], [], []⟩

/-- Environment whose directory listing returns only the zero-size entry. -/
def envC4 : Env :=
  { ownerSearch := fun _ => .error (.transport "down"),
    fetchGroup := fun _ => .error (.transport "down"),
    apiCall := fun _ => .ok (),
    fetchDirectory := fun _ => .ok dirC4 }

/-- C4 counterexample: the entry has name, md5, size and mtime all present
(the strings non-empty), yet `fetch_file_list` returns no `File` for it,
because a size of `0` is falsy in the truthiness filter. -/
theorem fetch_file_list_zero_size_counterexample :
    (fetch_file_list envC4 (.inr "p") (.inr "q")).1 = .ok [] ∧
    entryZero.name = some "a.txt" ∧ entryZero.md5 = some "abc123" ∧
    entryZero.size = some 0 ∧ entryZero.mtime = some 100 :=
  ⟨by decide, rfl, rfl, rfl, rfl⟩

/-- C4 as amended: for every directory-listing response, `fetch_file_list`
returns exactly one `File`, fields copied verbatim and in response order,
per entry whose name and md5 are present and non-empty and whose size and
mtime are present and non-zero; every other entry is dropped. -/
theorem fetch_file_list_filter_spec (env : Env) (prj : Project ⊕ String)
    (pkg : Package ⊕ String) (dir : Directory)
    (hdir : env.fetchDirectory
      (file_list_request (prj_arg_name prj) (pkg_arg_name pkg)) = .ok dir) :
    (fetch_file_list env prj pkg).1 =
      .ok ((dir.entry.filter entry_kept_spec).map file_of_entry_spec) := by
  simp only [fetch_file_list, hdir]
  rw [filterMap_file_eq]

/-- Directory entry kept by the filter. -/
def entryGood : DirEntry :=
  ⟨some "b.txt", some "abc123", some 10, some 100, none, none, none, none⟩

/-- Directory listing holding the kept entry and the zero-size entry. -/
def dirC4w : Directory :=
  ⟨none, none, none, none, none, [entryGood, entryZero], [], []⟩

/-- Environment whose directory listing returns `dirC4w`. -/
def envC4w : Env :=
  { ownerSearch := fun _ => .error (.transport "down"),
    fetchGroup := fun _ => .error (.transport "down"),
    apiCall := fun _ => .ok (),
    fetchDirectory := fun _ => .ok dirC4w }

/-- Witness for C4 as amended: of the two entries only the complete non-zero
one survives, copied verbatim. -/
theorem fetch_file_list_filter_spec_witness :
    (fetch_file_list envC4w (.inr "p") (.inr "q")).1 =
      .ok ((dirC4w.entry.filter entry_kept_spec).map file_of_entry_spec) ∧
    (dirC4w.entry.filter entry_kept_spec).map file_of_entry_spec =
      [⟨"b.txt", "abc123", 10, 100⟩] :=
  ⟨fetch_file_list_filter_spec envC4w (.inr "p") (.inr "q") dirC4w rfl, by decide⟩
